import Mathlib

/-!
Verification of the olas-contracts repository core: the `PetActivityChecker`
activity-ratio evaluator and the two `ActionRepository` ledger variants
(the self-or-owner variant and the EIP-712 signature-verified variant).

Addresses and 32-byte identifiers are modelled as `Nat` (opaque keys compared
only for equality, with `0` playing the role of the zero address).  `uint256`
arithmetic follows Solidity ^0.8 checked semantics: an addition or
multiplication whose mathematical result exceeds `2^256 - 1` aborts the whole
call.  A reverting call is modelled as `Except.error`; by EVM transaction
semantics an error leaves the caller-visible state unchanged, which the
`step` functions below make explicit.
-/

/-- Largest value representable by a `uint256`. -/
def UMAX : Nat := 2 ^ 256 - 1

/-- Error taxonomy of the contracts (custom errors plus the arithmetic
overflow panic of Solidity ^0.8 and the OpenZeppelin `Ownable` / `ECDSA`
errors used by the signature-verified variant). -/
inductive RepoErr where
  | ZeroAddress
  | ZeroAmount
  | ZeroValue
  | NotOwner
  | NotAuthorized
  | ArrayLengthMismatch
  | NonceAlreadyUsed
  | InvalidSignature
  | ECDSAInvalidSignature
  | OwnableUnauthorizedAccount
  | OwnableInvalidOwner
  | overflow
  deriving DecidableEq, Repr

/-- Solidity ^0.8 checked addition on `uint256`. -/
def uadd (a b : Nat) : Except RepoErr Nat :=
  if UMAX < a + b then .error .overflow else .ok (a + b)

/-- `Except.isOk` spelled out locally so that all claims evaluate by `decide`. -/
def exOk {ε α : Type} : Except ε α → Bool
  | .ok _ => true
  | .error _ => false

/-- Post-state of a call that also returns a value: the new state on
success, the unchanged pre-state on a revert. -/
def okState {σ : Type} (s : σ) : Except RepoErr (σ × Nat) → σ
  | .ok p => p.1
  | .error _ => s

/-- Return value of a successful call (zero on a revert, unused there). -/
def okValue {σ : Type} : Except RepoErr (σ × Nat) → Nat
  | .ok p => p.2
  | .error _ => 0

namespace PetActivityChecker

/-- `uint256 private constant ONE = 1e18;` -/
def ONE : Nat := 10 ^ 18

/-- `uint256 private constant THIRTY_DAYS_SECONDS = 2592000;` -/
def THIRTY_DAYS_SECONDS : Nat := 2592000

/-- Shallow embedding of `PetActivityChecker.isRatioPass`.  The contract field
`livenessRatio` is passed explicitly.  Solidity ^0.8 aborts the call when
`diff * ONE` overflows a `uint256`, modelled by the `.error .overflow` branch;
every other exit returns a boolean. -/
def isRatioPass (livenessRatio : Nat) (curNonces lastNonces : List Nat)
    (ts : Nat) : Except RepoErr Bool :=
  if curNonces.length ≠ lastNonces.length ∨ curNonces.length < 2 then
    .ok false
  else if curNonces.getD 1 0 = 0 then
    .ok false
  else if ts = 0 then
    .ok false
  else if THIRTY_DAYS_SECONDS ≤ ts then
    .ok false
  else if curNonces.getD 0 0 ≤ lastNonces.getD 0 0 then
    .ok false
  else if UMAX < (curNonces.getD 0 0 - lastNonces.getD 0 0) * ONE then
    .error .overflow
  else if (curNonces.getD 0 0 - lastNonces.getD 0 0) * ONE / ts <
      livenessRatio then
    .ok false
  else
    .ok true

/-- Shallow embedding of `PetActivityChecker.computeRequiredActions`. -/
def computeRequiredActions (livenessRatio periodSeconds : Nat) :
    Except RepoErr Nat :=
  if UMAX < livenessRatio * periodSeconds then .error .overflow
  else .ok (livenessRatio * periodSeconds / ONE)

end PetActivityChecker

namespace ActionRepository

/-- Storage of the self-or-owner `ActionRepository` variant: the owner plus
the four per-agent mappings (`_actionCounts`, `_totalActions`,
`_lastActionAt`, `_agentActive`). -/
structure RepoState where
  owner : Nat
  actionCounts : Nat → Nat → Nat
  totalActions : Nat → Nat
  lastActionAt : Nat → Nat
  agentActive : Nat → Bool

/-- State produced by `constructor(address admin)` (the `admin ≠ 0` check is
a side condition recorded in `Reachable`). -/
def initState (admin : Nat) : RepoState :=
  { owner := admin
    actionCounts := fun _ _ => 0
    totalActions := fun _ => 0
    lastActionAt := fun _ => 0
    agentActive := fun _ => false }

/-- Shallow embedding of `ActionRepository.recordAction` (self-or-owner
variant).  `sender` is `msg.sender` and `now` is `block.timestamp`. -/
def recordAction (s : RepoState) (sender agent actionType amount now : Nat) :
    Except RepoErr (RepoState × Nat) :=
  if sender ≠ agent ∧ sender ≠ s.owner then .error .NotAuthorized
  else if agent = 0 then .error .ZeroAddress
  else if amount = 0 then .error .ZeroAmount
  else do
    let updatedActionCount ← uadd (s.actionCounts agent actionType) amount
    let updatedTotal ← uadd (s.totalActions agent) amount
    .ok ({ s with
            actionCounts := fun a t =>
              if a = agent ∧ t = actionType then updatedActionCount
              else s.actionCounts a t
            totalActions := fun a =>
              if a = agent then updatedTotal else s.totalActions a
            lastActionAt := fun a =>
              if a = agent then now else s.lastActionAt a
            agentActive := fun a =>
              if a = agent then true else s.agentActive a },
          updatedActionCount)

/-- Shallow embedding of `ActionRepository.recordActionForSelf`. -/
def recordActionForSelf (s : RepoState) (sender actionType amount now : Nat) :
    Except RepoErr (RepoState × Nat) :=
  recordAction s sender sender actionType amount now

/-- The loop body of `recordActionsBatch`, iterating over the zipped
`(actionTypes, amounts)` pairs while threading the `_actionCounts` writes and
the local `newTotal` / `totalAdded` accumulators. -/
def batchLoop (agent : Nat) (counts : Nat → Nat → Nat)
    (newTotal totalAdded : Nat) :
    List (Nat × Nat) → Except RepoErr ((Nat → Nat → Nat) × Nat × Nat)
  | [] => .ok (counts, newTotal, totalAdded)
  | (actionType, amount) :: rest =>
    if amount = 0 then .error .ZeroAmount
    else do
      let updatedActionCount ← uadd (counts agent actionType) amount
      let newTotal' ← uadd newTotal amount
      let totalAdded' ← uadd totalAdded amount
      batchLoop agent
        (fun a t =>
          if a = agent ∧ t = actionType then updatedActionCount
          else counts a t)
        newTotal' totalAdded' rest

/-- Shallow embedding of `ActionRepository.recordActionsBatch` (self-or-owner
variant).  The trailing `if totalAdded > 0` mirrors the source: the
aggregate, timestamp and active flag are only written for non-empty
batches. -/
def recordActionsBatch (s : RepoState) (sender agent : Nat)
    (actionTypes amounts : List Nat) (now : Nat) :
    Except RepoErr (RepoState × Nat) :=
  if sender ≠ agent ∧ sender ≠ s.owner then .error .NotAuthorized
  else if agent = 0 then .error .ZeroAddress
  else if actionTypes.length ≠ amounts.length then .error .ArrayLengthMismatch
  else do
    let (counts, newTotal, totalAdded) ←
      batchLoop agent s.actionCounts (s.totalActions agent) 0
        (actionTypes.zip amounts)
    if 0 < totalAdded then
      .ok ({ s with
              actionCounts := counts
              totalActions := fun a =>
                if a = agent then newTotal else s.totalActions a
              lastActionAt := fun a =>
                if a = agent then now else s.lastActionAt a
              agentActive := fun a =>
                if a = agent then true else s.agentActive a },
            totalAdded)
    else
      .ok ({ s with actionCounts := counts }, totalAdded)

/-- Shallow embedding of `ActionRepository.setAgentStatus`. -/
def setAgentStatus (s : RepoState) (sender agent : Nat) (active : Bool) :
    Except RepoErr RepoState :=
  if sender ≠ agent ∧ sender ≠ s.owner then .error .NotAuthorized
  else if agent = 0 then .error .ZeroAddress
  else .ok { s with agentActive := fun a =>
              if a = agent then active else s.agentActive a }

/-- Shallow embedding of `ActionRepository.transferOwnership`. -/
def transferOwnership (s : RepoState) (sender newOwner : Nat) :
    Except RepoErr RepoState :=
  if sender ≠ s.owner then .error .NotOwner
  else if newOwner = 0 then .error .ZeroAddress
  else .ok { s with owner := newOwner }

/-- The external mutating calls of the self-or-owner variant, each carrying
its `msg.sender` and, where the body reads it, `block.timestamp`. -/
inductive Op where
  | record (sender agent actionType amount now : Nat)
  | recordSelf (sender actionType amount now : Nat)
  | batch (sender agent : Nat) (actionTypes amounts : List Nat) (now : Nat)
  | setStatus (sender agent : Nat) (active : Bool)
  | transfer (sender newOwner : Nat)

/-- Run one external call, keeping only the post-state of a success. -/
def applyOp (s : RepoState) : Op → Except RepoErr RepoState
  | .record sender agent actionType amount now =>
    (recordAction s sender agent actionType amount now).map Prod.fst
  | .recordSelf sender actionType amount now =>
    (recordActionForSelf s sender actionType amount now).map Prod.fst
  | .batch sender agent actionTypes amounts now =>
    (recordActionsBatch s sender agent actionTypes amounts now).map Prod.fst
  | .setStatus sender agent active => setAgentStatus s sender agent active
  | .transfer sender newOwner => transferOwnership s sender newOwner

/-- Transaction semantics: a reverted call leaves the state unchanged. -/
def step (s : RepoState) (op : Op) : RepoState :=
  match applyOp s op with
  | .ok s' => s'
  | .error _ => s

/-- States reachable from a freshly constructed repository by any sequence
of external calls. -/
def Reachable (s : RepoState) : Prop :=
  ∃ admin ops, admin ≠ 0 ∧ s = List.foldl step (initState admin) ops

/-- A counter map together with its stored aggregate is coherent: the map
has finite support, and over every finite set covering that support the sum
of the counters is the stored aggregate.  This is the "total equals the sum
over all action types" property for maps with infinitely many keys. -/
def InvAt (counts : Nat → Nat) (total : Nat) : Prop :=
  (∃ T : Finset Nat, ∀ t, t ∉ T → counts t = 0) ∧
  (∀ T : Finset Nat, (∀ t, t ∉ T → counts t = 0) → total = T.sum counts)

/-- Ledger-wide aggregate coherence: for every agent, the stored
`_totalActions` equals the sum of the `_actionCounts` row. -/
def SumInv (s : RepoState) : Prop :=
  ∀ agent, InvAt (s.actionCounts agent) (s.totalActions agent)

end ActionRepository

namespace ActionRepositoryV2

/-- Storage of the EIP-712 signature-verified `ActionRepository` variant:
the `Ownable` owner, the configured `mainSigner`, the four per-agent
mappings, and the consumed-nonce set `_actionNoncesUsed`. -/
structure RepoV2 where
  owner : Nat
  mainSigner : Nat
  actionCounts : Nat → Nat → Nat
  totalActions : Nat → Nat
  lastActionAt : Nat → Nat
  agentActive : Nat → Bool
  actionNoncesUsed : Nat → Bool

/-- Abstraction of `verifyAction` minus the nonce bookkeeping: the composite
of EIP-712 hashing and `ECDSA.recover` over `(actionId, nonce, timestamp,
v, r, s)`.  It is an arbitrary pure function of its six arguments; the
`.error` case models OpenZeppelin's `ECDSA.recover` reverting on a malformed
signature.  All theorems below hold for every such function. -/
def Recover : Type := Nat → Nat → Nat → Nat → Nat → Nat → Except Unit Nat

/-- Shallow embedding of the internal `recordActionAs` helper. -/
def recordActionAs (s : RepoV2) (actionType amount agent now : Nat) :
    Except RepoErr (RepoV2 × Nat) :=
  if agent = 0 then .error .ZeroAddress
  else if amount = 0 then .error .ZeroAmount
  else do
    let updatedActionCount ← uadd (s.actionCounts agent actionType) amount
    let updatedTotal ← uadd (s.totalActions agent) amount
    .ok ({ s with
            actionCounts := fun a t =>
              if a = agent ∧ t = actionType then updatedActionCount
              else s.actionCounts a t
            totalActions := fun a =>
              if a = agent then updatedTotal else s.totalActions a
            lastActionAt := fun a =>
              if a = agent then now else s.lastActionAt a
            agentActive := fun a =>
              if a = agent then true else s.agentActive a },
          updatedActionCount)

/-- Shallow embedding of `verifyAndConsumeAction`.  `_useNonce` runs while
the arguments of `verifyAction` are evaluated, so a repeated nonce reverts
with `NonceAlreadyUsed` before any signature work; the nonce marking of a
call that later reverts is undone with the rest of the transaction, which
the `Except` result models (an `.error` carries no state).  The `uint8`
`actionId` doubles as the stored `bytes32` action type via
`bytes32(uint256(actionId))`. -/
def verifyAndConsumeAction (f : Recover) (s : RepoV2)
    (actionId nonce timestamp v r sg now : Nat) :
    Except RepoErr (RepoV2 × Nat) :=
  if s.actionNoncesUsed nonce then .error .NonceAlreadyUsed
  else
    match f actionId nonce timestamp v r sg with
    | .error _ => .error .ECDSAInvalidSignature
    | .ok recoveredSigner =>
      if recoveredSigner ≠ s.mainSigner then .error .InvalidSignature
      else
        recordActionAs
          { s with actionNoncesUsed := fun m =>
              if m = nonce then true else s.actionNoncesUsed m }
          actionId 1 s.mainSigner now

/-- Shallow embedding of the variant's `recordAction` (owner-gated, credits
`msg.sender`). -/
def recordActionV2 (s : RepoV2) (sender actionType amount now : Nat) :
    Except RepoErr (RepoV2 × Nat) :=
  if sender ≠ s.owner then .error .OwnableUnauthorizedAccount
  else if sender = 0 then .error .ZeroAddress
  else if amount = 0 then .error .ZeroAmount
  else do
    let updatedActionCount ← uadd (s.actionCounts sender actionType) amount
    let updatedTotal ← uadd (s.totalActions sender) amount
    .ok ({ s with
            actionCounts := fun a t =>
              if a = sender ∧ t = actionType then updatedActionCount
              else s.actionCounts a t
            totalActions := fun a =>
              if a = sender then updatedTotal else s.totalActions a
            lastActionAt := fun a =>
              if a = sender then now else s.lastActionAt a
            agentActive := fun a =>
              if a = sender then true else s.agentActive a },
          updatedActionCount)

/-- Shallow embedding of the variant's `recordActionsBatch` (owner-gated,
credits `msg.sender`); the loop is shared with the other variant. -/
def recordActionsBatchV2 (s : RepoV2) (sender : Nat)
    (actionTypes amounts : List Nat) (now : Nat) :
    Except RepoErr (RepoV2 × Nat) :=
  if sender ≠ s.owner then .error .OwnableUnauthorizedAccount
  else if sender = 0 then .error .ZeroAddress
  else if actionTypes.length ≠ amounts.length then .error .ArrayLengthMismatch
  else do
    let (counts, newTotal, totalAdded) ←
      ActionRepository.batchLoop sender s.actionCounts
        (s.totalActions sender) 0 (actionTypes.zip amounts)
    if 0 < totalAdded then
      .ok ({ s with
              actionCounts := counts
              totalActions := fun a =>
                if a = sender then newTotal else s.totalActions a
              lastActionAt := fun a =>
                if a = sender then now else s.lastActionAt a
              agentActive := fun a =>
                if a = sender then true else s.agentActive a },
            totalAdded)
    else
      .ok ({ s with actionCounts := counts }, totalAdded)

/-- OpenZeppelin `Ownable.transferOwnership`. -/
def transferOwnershipV2 (s : RepoV2) (sender newOwner : Nat) :
    Except RepoErr RepoV2 :=
  if sender ≠ s.owner then .error .OwnableUnauthorizedAccount
  else if newOwner = 0 then .error .OwnableInvalidOwner
  else .ok { s with owner := newOwner }

/-- OpenZeppelin `Ownable.renounceOwnership`. -/
def renounceOwnershipV2 (s : RepoV2) (sender : Nat) :
    Except RepoErr RepoV2 :=
  if sender ≠ s.owner then .error .OwnableUnauthorizedAccount
  else .ok { s with owner := 0 }

/-- The external mutating calls of the signature-verified variant
(`_changeMainSigner` is private and has no caller in the contract, so no
external call can reach it). -/
inductive OpV2 where
  | record (sender actionType amount now : Nat)
  | batch (sender : Nat) (actionTypes amounts : List Nat) (now : Nat)
  | verify (actionId nonce timestamp v r sg now : Nat)
  | transfer (sender newOwner : Nat)
  | renounce (sender : Nat)

/-- Run one external call, keeping only the post-state of a success. -/
def applyOpV2 (f : Recover) (s : RepoV2) : OpV2 → Except RepoErr RepoV2
  | .record sender actionType amount now =>
    (recordActionV2 s sender actionType amount now).map Prod.fst
  | .batch sender actionTypes amounts now =>
    (recordActionsBatchV2 s sender actionTypes amounts now).map Prod.fst
  | .verify actionId nonce timestamp v r sg now =>
    (verifyAndConsumeAction f s actionId nonce timestamp v r sg now).map
      Prod.fst
  | .transfer sender newOwner => transferOwnershipV2 s sender newOwner
  | .renounce sender => renounceOwnershipV2 s sender

/-- Transaction semantics: a reverted call leaves the state unchanged. -/
def stepV2 (f : Recover) (s : RepoV2) (op : OpV2) : RepoV2 :=
  match applyOpV2 f s op with
  | .ok s' => s'
  | .error _ => s

/-- Whether one external call is a successful `verifyAndConsumeAction`
consuming the nonce `n` when executed from state `s`. -/
def consumes (f : Recover) (n : Nat) (s : RepoV2) : OpV2 → Bool
  | .verify actionId nonce timestamp v r sg now =>
    nonce == n &&
      exOk (verifyAndConsumeAction f s actionId nonce timestamp v r sg now)
  | _ => false

/-- Number of successful `verifyAndConsumeAction` calls consuming nonce `n`
along an execution history starting at `s`. -/
def countConsume (f : Recover) (n : Nat) (s : RepoV2) : List OpV2 → Nat
  | [] => 0
  | op :: rest =>
    (if consumes f n s op then 1 else 0) +
      countConsume f n (stepV2 f s op) rest

/-- Recovery function used in concrete scenarios: every signature recovers
to the address 5. -/
def recoverConst : Recover := fun _ _ _ _ _ _ => .ok 5

/-- A freshly constructed signature-verified repository with owner 1 and
main signer 5. -/
def freshV2 : RepoV2 :=
  { owner := 1
    mainSigner := 5
    actionCounts := fun _ _ => 0
    totalActions := fun _ => 0
    lastActionAt := fun _ => 0
    agentActive := fun _ => false
    actionNoncesUsed := fun _ => false }

/-- The same repository after nonce 9 has been consumed. -/
def usedV2 : RepoV2 :=
  { freshV2 with actionNoncesUsed := fun m => if m = 9 then true else false }

end ActionRepositoryV2

section EvaluatorClaims

open PetActivityChecker

/-- **C1** (amended).  For equal-length snapshots of length at least two with
a nonzero current active flag, an elapsed time strictly between 0 and
2592000 and a strictly increasing total, and provided the intermediate
product `(currentTotal - previousTotal) * 10^18` fits in a `uint256`,
`isRatioPass` returns `true` exactly when the truncating fixed-point ratio
reaches `livenessRatio`; with `livenessRatio = 0.5 * 10^18`, 4 actions over
12 seconds fail and 6 actions over 12 seconds pass. -/
theorem isRatioPass_boundary_inclusive (R : Nat) (cur last : List Nat)
    (ts : Nat) (hlen : cur.length = last.length) (hlen2 : 2 ≤ cur.length)
    (hact : cur.getD 1 0 ≠ 0) (hts0 : 0 < ts) (hts1 : ts < 2592000)
    (hinc : last.getD 0 0 < cur.getD 0 0)
    (hfit : (cur.getD 0 0 - last.getD 0 0) * ONE ≤ UMAX) :
    (isRatioPass R cur last ts = .ok true ↔
      R ≤ (cur.getD 0 0 - last.getD 0 0) * ONE / ts) ∧
    isRatioPass (5 * 10 ^ 17) [4, 1] [0, 1] 12 = .ok false ∧
    isRatioPass (5 * 10 ^ 17) [6, 1] [0, 1] 12 = .ok true := by
  refine ⟨?_, rfl, rfl⟩
  unfold isRatioPass
  rw [if_neg (by omega), if_neg hact, if_neg (by omega),
    if_neg (by simp only [THIRTY_DAYS_SECONDS]; omega), if_neg (by omega),
    if_neg (by omega)]
  by_cases h : (cur.getD 0 0 - last.getD 0 0) * ONE / ts < R
  · rw [if_pos h]
    exact iff_of_false (by simp) (Nat.not_le.mpr h)
  · rw [if_neg h]
    exact iff_of_true rfl (Nat.not_lt.mp h)

/-- **C1 counterexample.**  At `livenessRatio = 1`, snapshots `[2^240, 1]`
and `[0, 1]` and `ts = 1`, every side condition of the claim holds and the
truncating ratio is far above the liveness ratio, yet the call aborts with
an arithmetic overflow instead of returning `true`. -/
theorem isRatioPass_boundary_claim_cex :
    isRatioPass 1 [2 ^ 240, 1] [0, 1] 1 = .error .overflow ∧
    1 ≤ (2 ^ 240 - 0) * ONE / 1 := by
  exact ⟨rfl, by decide⟩

/-- **C1 witness.** -/
theorem isRatioPass_boundary_inclusive_witness :
    ([6, 1] : List Nat).length = ([0, 1] : List Nat).length ∧
    2 ≤ ([6, 1] : List Nat).length ∧
    ([6, 1] : List Nat).getD 1 0 ≠ 0 ∧ 0 < 12 ∧ 12 < 2592000 ∧
    ([0, 1] : List Nat).getD 0 0 < ([6, 1] : List Nat).getD 0 0 ∧
    (([6, 1] : List Nat).getD 0 0 - ([0, 1] : List Nat).getD 0 0) * ONE ≤
      UMAX ∧
    ((isRatioPass (5 * 10 ^ 17) [6, 1] [0, 1] 12 = .ok true ↔
        5 * 10 ^ 17 ≤
          (([6, 1] : List Nat).getD 0 0 - ([0, 1] : List Nat).getD 0 0) *
            ONE / 12) ∧
      isRatioPass (5 * 10 ^ 17) [4, 1] [0, 1] 12 = .ok false ∧
      isRatioPass (5 * 10 ^ 17) [6, 1] [0, 1] 12 = .ok true) :=
  ⟨rfl, by decide, by decide, by decide, by decide, by decide, by decide,
    isRatioPass_boundary_inclusive (5 * 10 ^ 17) [6, 1] [0, 1] 12 rfl
      (by decide) (by decide) (by decide) (by decide) (by decide)
      (by decide)⟩

/-- **C2** (amended).  On every input whose counter delta times `10^18`
fits in a `uint256`, `isRatioPass` returns a boolean — every disqualifying
condition resolves to the value `false`, never to an abort. -/
theorem isRatioPass_total_no_overflow (R : Nat) (cur last : List Nat)
    (ts : Nat)
    (hfit : (cur.getD 0 0 - last.getD 0 0) * ONE ≤ UMAX) :
    exOk (isRatioPass R cur last ts) = true := by
  unfold isRatioPass
  split_ifs <;> first | rfl | omega

/-- **C2 counterexample.**  The evaluator is not total over all well-typed
`uint256` inputs: a delta of `2^239` over one second makes the checked
multiplication `diff * 10^18` overflow and the call abort. -/
theorem isRatioPass_total_claim_cex :
    isRatioPass 1 [2 ^ 239, 1] [0, 1] 1 = .error .overflow := rfl

/-- **C2 witness.** -/
theorem isRatioPass_total_no_overflow_witness :
    (([5, 1] : List Nat).getD 0 0 - ([3, 1] : List Nat).getD 0 0) * ONE ≤
      UMAX ∧
    exOk (isRatioPass 1 [5, 1] [3, 1] 7) = true :=
  ⟨by decide, isRatioPass_total_no_overflow 1 [5, 1] [3, 1] 7 (by decide)⟩

/-- **C7.**  Time-window guard: a zero elapsed time, or an elapsed time of
at least 2592000 seconds (thirty days), always yields `false`, whatever the
snapshots contain. -/
theorem isRatioPass_time_window_guard (R : Nat) (cur last : List Nat)
    (ts : Nat) (h : ts = 0 ∨ 2592000 ≤ ts) :
    isRatioPass R cur last ts = .ok false := by
  unfold isRatioPass
  split_ifs with h1 h2 h3 h4 <;>
    first
    | rfl
    | (exfalso; simp only [THIRTY_DAYS_SECONDS] at h4; omega)

/-- **C7 witness.** -/
theorem isRatioPass_time_window_guard_witness :
    ((2592000 : Nat) = 0 ∨ 2592000 ≤ 2592000) ∧
    isRatioPass 1 [10 ^ 9, 1] [0, 1] 2592000 = .ok false :=
  ⟨Or.inr (by decide),
    isRatioPass_time_window_guard 1 [10 ^ 9, 1] [0, 1] 2592000
      (Or.inr (by decide))⟩

/-- **C8.**  An inactive agent always fails: whenever the current
snapshot's active-flag field (index 1) is zero — including when the
snapshot is too short for the field to exist — the result is `false`. -/
theorem isRatioPass_inactive_fails (R : Nat) (cur last : List Nat)
    (ts : Nat) (h : cur.getD 1 0 = 0) :
    isRatioPass R cur last ts = .ok false := by
  unfold isRatioPass
  split_ifs <;> rfl

/-- **C8 witness.** -/
theorem isRatioPass_inactive_fails_witness :
    ([9, 0] : List Nat).getD 1 0 = 0 ∧
    isRatioPass 1 [9, 0] [1, 2] 5 = .ok false :=
  ⟨rfl, isRatioPass_inactive_fails 1 [9, 0] [1, 2] 5 rfl⟩

/-- **C10.**  The decision depends only on fields 0 and 1 of the current
snapshot, field 0 of the previous snapshot, the internal length guard and
`ts`: any two calls whose snapshot pairs each have matching lengths at
least two and that agree on those metrics give identical results — even
when the two calls use snapshots of different lengths — so the previous
active flag and any fields at index two or beyond never influence the
outcome; and longer equal-length snapshots are accepted rather than
rejected, as a 3-field snapshot pair evaluating to `true` shows. -/
theorem isRatioPass_depends_only_on_observed_fields (R : Nat)
    (cur last cur' last' : List Nat) (ts : Nat)
    (hlen : cur.length = last.length) (hge : 2 ≤ cur.length)
    (hlen' : cur'.length = last'.length) (hge' : 2 ≤ cur'.length)
    (h0 : cur.getD 0 0 = cur'.getD 0 0) (h1 : cur.getD 1 0 = cur'.getD 1 0)
    (hp0 : last.getD 0 0 = last'.getD 0 0) :
    isRatioPass R cur last ts = isRatioPass R cur' last' ts ∧
    isRatioPass 1 [6, 1, 999] [0, 5, 888] 12 = .ok true := by
  refine ⟨?_, rfl⟩
  unfold isRatioPass
  rw [h0, h1, hp0,
    if_neg (show ¬(cur.length ≠ last.length ∨ cur.length < 2) from by omega),
    if_neg (show ¬(cur'.length ≠ last'.length ∨ cur'.length < 2) from by
      omega)]

/-- **C10 witness.** -/
theorem isRatioPass_depends_only_on_observed_fields_witness :
    ([6, 1, 999] : List Nat).length = ([0, 5, 888] : List Nat).length ∧
    2 ≤ ([6, 1, 999] : List Nat).length ∧
    ([6, 1] : List Nat).length = ([0, 1] : List Nat).length ∧
    2 ≤ ([6, 1] : List Nat).length ∧
    (isRatioPass 7 [6, 1, 999] [0, 5, 888] 12 =
        isRatioPass 7 [6, 1] [0, 1] 12 ∧
      isRatioPass 1 [6, 1, 999] [0, 5, 888] 12 = .ok true) :=
  ⟨rfl, by decide, rfl, by decide,
    isRatioPass_depends_only_on_observed_fields 7 [6, 1, 999] [0, 5, 888]
      [6, 1] [0, 1] 12 rfl (by decide) rfl (by decide) rfl rfl rfl⟩

end EvaluatorClaims

section LedgerClaims

open ActionRepository

/-- Adding `amount` at one key of a finitely supported counter map adds
`amount` to its sum over every covering finite set. -/
lemma cover_update (counts : Nat → Nat) (total ty amount : Nat)
    (hamt : amount ≠ 0)
    (hsum : ∀ T : Finset Nat, (∀ t, t ∉ T → counts t = 0) →
      total = T.sum counts) :
    ∀ T : Finset Nat,
      (∀ t, t ∉ T → (if t = ty then counts ty + amount else counts t) = 0) →
      total + amount =
        T.sum (fun t => if t = ty then counts ty + amount else counts t) := by
  intro T hT
  have hty : ty ∈ T := by
    by_contra hmem
    have h0 := hT ty hmem
    rw [if_pos rfl] at h0
    omega
  have hcov : ∀ t, t ∉ T → counts t = 0 := by
    intro t ht
    have h0 := hT t ht
    rw [if_neg (fun he => ht (by rw [he]; exact hty))] at h0
    exact h0
  have h1 : (T.erase ty).sum
      (fun t => if t = ty then counts ty + amount else counts t) =
      (T.erase ty).sum counts := by
    refine Finset.sum_congr rfl fun t htmem => ?_
    exact if_neg (Finset.mem_erase.mp htmem).1
  have h2 : (∑ t in T.erase ty, if t = ty then counts ty + amount
        else counts t) + (if ty = ty then counts ty + amount else counts ty) =
      ∑ t in T, if t = ty then counts ty + amount else counts t :=
    Finset.sum_erase_add T _ hty
  have h3 := Finset.sum_erase_add T counts hty
  have h4 := hsum T hcov
  rw [if_pos rfl] at h2
  have h5 : T.sum counts = ∑ t in T, counts t := rfl
  have h6 : (T.erase ty).sum counts = ∑ t in T.erase ty, counts t := rfl
  omega

/-- Full characterization of a successful `recordAction` call. -/
lemma recordAction_ok {s : RepoState} {sender agent ty amt now : Nat}
    {s' : RepoState} {r : Nat}
    (h : recordAction s sender agent ty amt now = .ok (s', r)) :
    amt ≠ 0 ∧ agent ≠ 0 ∧
    (∀ a t, s'.actionCounts a t =
      if a = agent ∧ t = ty then s.actionCounts agent ty + amt
      else s.actionCounts a t) ∧
    (∀ a, s'.totalActions a =
      if a = agent then s.totalActions agent + amt else s.totalActions a) ∧
    (∀ a, s'.lastActionAt a =
      if a = agent then now else s.lastActionAt a) ∧
    (∀ a, s'.agentActive a =
      if a = agent then true else s.agentActive a) ∧
    r = s.actionCounts agent ty + amt := by
  unfold recordAction uadd at h
  split_ifs at h with h1 h2 h3 h4 h5
  all_goals simp only [Bind.bind, Except.bind] at h
  all_goals cases h
  exact ⟨h3, h2, fun a t => rfl, fun a => rfl, fun a => rfl, fun a => rfl,
    rfl⟩

/-- **C9.**  Every successful `recordAction(agent, actionType, amount)` adds
exactly `amount` to the per-type counter and the aggregate, stamps
`lastActionAt` with the current time, sets the active flag, and returns the
updated per-type counter; consequently, from an empty ledger, recording 2 of
type A and 1 of type B for agent X yields `actionCount(X, A) = 2`,
`actionCount(X, B) = 1` and `totalActions(X) = 3`. -/
theorem recordAction_postcondition :
    (∀ s sender agent actionType amount now,
      exOk (recordAction s sender agent actionType amount now) = true →
      (okState s (recordAction s sender agent actionType amount
            now)).actionCounts agent actionType =
          s.actionCounts agent actionType + amount ∧
        (okState s (recordAction s sender agent actionType amount
            now)).totalActions agent = s.totalActions agent + amount ∧
        (okState s (recordAction s sender agent actionType amount
            now)).lastActionAt agent = now ∧
        (okState s (recordAction s sender agent actionType amount
            now)).agentActive agent = true ∧
        okValue (recordAction s sender agent actionType amount now) =
          (okState s (recordAction s sender agent actionType amount
            now)).actionCounts agent actionType) ∧
    (recordAction (initState 1) 2 2 10 2 100 >>= fun p =>
        (recordAction p.1 2 2 11 1 101).map fun q =>
          (q.1.actionCounts 2 10, q.1.actionCounts 2 11,
            q.1.totalActions 2)) = .ok (2, 1, 3) := by
  refine ⟨?_, rfl⟩
  intro s sender agent actionType amount now h
  cases hA : recordAction s sender agent actionType amount now with
  | error e => rw [hA] at h; simp [exOk] at h
  | ok p =>
    obtain ⟨_, _, hcnt, htot, hlast, hact, hval⟩ := recordAction_ok hA
    refine ⟨?_, ?_, ?_, ?_, ?_⟩ <;>
      simp [okState, okValue, hcnt, htot, hlast, hact, hval]

/-- **C9 witness.** -/
theorem recordAction_postcondition_witness :
    exOk (recordAction (initState 1) 2 2 10 2 100) = true ∧
    ((okState (initState 1) (recordAction (initState 1) 2 2 10 2
          100)).actionCounts 2 10 =
        (initState 1).actionCounts 2 10 + 2 ∧
      (okState (initState 1) (recordAction (initState 1) 2 2 10 2
          100)).totalActions 2 = (initState 1).totalActions 2 + 2 ∧
      (okState (initState 1) (recordAction (initState 1) 2 2 10 2
          100)).lastActionAt 2 = 100 ∧
      (okState (initState 1) (recordAction (initState 1) 2 2 10 2
          100)).agentActive 2 = true ∧
      okValue (recordAction (initState 1) 2 2 10 2 100) =
        (okState (initState 1) (recordAction (initState 1) 2 2 10 2
          100)).actionCounts 2 10) :=
  ⟨rfl, recordAction_postcondition.1 (initState 1) 2 2 10 2 100 rfl⟩

/-- Whenever the remaining batch items contain a zero amount and no checked
addition along the way can overflow, the batch loop reverts with
`ZeroAmount`. -/
lemma batchLoop_zero_amount (agent : Nat) (l : List (Nat × Nat)) :
    ∀ (counts : Nat → Nat → Nat) (newTotal totalAdded : Nat),
      (∃ p ∈ l, p.2 = 0) →
      (∀ t, counts agent t + (l.map Prod.snd).sum ≤ UMAX) →
      newTotal + (l.map Prod.snd).sum ≤ UMAX →
      totalAdded ≤ newTotal →
      batchLoop agent counts newTotal totalAdded l = .error .ZeroAmount := by
  induction l with
  | nil =>
    intro counts newTotal totalAdded hz _ _ _
    simp at hz
  | cons head rest ih =>
    obtain ⟨ty, a⟩ := head
    intro counts newTotal totalAdded hz hc ht hta
    have hsum : (((ty, a) :: rest).map Prod.snd).sum =
        a + (rest.map Prod.snd).sum := by simp
    unfold batchLoop
    by_cases ha : a = 0
    · rw [if_pos ha]
    · rw [if_neg ha]
      have hc1 : ¬UMAX < counts agent ty + a := by
        have := hc ty; omega
      have hc2 : ¬UMAX < newTotal + a := by omega
      have hc3 : ¬UMAX < totalAdded + a := by omega
      unfold uadd
      rw [if_neg hc1, if_neg hc2, if_neg hc3]
      simp only [Bind.bind, Except.bind]
      refine ih _ _ _ ?_ ?_ ?_ ?_
      · obtain ⟨p, hp, hp2⟩ := hz
        rcases List.mem_cons.mp hp with hph | hpr
        · exact absurd (by rw [hph] at hp2; exact hp2) ha
        · exact ⟨p, hpr, hp2⟩
      · intro t
        by_cases hat : t = ty
        · subst hat
          rw [if_pos ⟨rfl, rfl⟩]
          have := hc t; omega
        · rw [if_neg (fun hand => hat hand.2)]
          have := hc t; omega
      · omega
      · omega

/-- **C3** (amended).  For every authorized, well-formed batch call (caller
is the agent or the owner, nonzero agent, matching array lengths, no
intermediate checked addition overflowing) whose `amounts` array contains a
zero entry, `recordActionsBatch` reverts with `ZeroAmount` and the ledger
state is unchanged: no partial increments from earlier valid items
survive. -/
theorem recordActionsBatch_atomic (s : RepoState)
    (sender agent : Nat) (actionTypes amounts : List Nat) (now : Nat)
    (hauth : sender = agent ∨ sender = s.owner) (hag : agent ≠ 0)
    (hlen : actionTypes.length = amounts.length) (hz : 0 ∈ amounts)
    (hcfit : ∀ t, s.actionCounts agent t + amounts.sum ≤ UMAX)
    (htfit : s.totalActions agent + amounts.sum ≤ UMAX) :
    recordActionsBatch s sender agent actionTypes amounts now =
      .error .ZeroAmount ∧
    step s (.batch sender agent actionTypes amounts now) = s := by
  have hmap : (actionTypes.zip amounts).map Prod.snd = amounts :=
    List.map_snd_zip actionTypes amounts (le_of_eq hlen.symm)
  have hloop : batchLoop agent s.actionCounts (s.totalActions agent) 0
      (actionTypes.zip amounts) = .error .ZeroAmount := by
    refine batchLoop_zero_amount agent _ _ _ _ ?_ ?_ ?_ ?_
    · obtain ⟨⟨i, hi⟩, hn⟩ := List.mem_iff_get.mp hz
      have hzl : i < (actionTypes.zip amounts).length := by
        simp only [List.length_zip]; omega
      refine ⟨(actionTypes.zip amounts).get ⟨i, hzl⟩,
        List.mem_iff_get.mpr ⟨⟨i, hzl⟩, rfl⟩, ?_⟩
      have hzz : (actionTypes.zip amounts).get ⟨i, hzl⟩ =
          (actionTypes.get ⟨i, by omega⟩, amounts.get ⟨i, hi⟩) := by
        simp [List.get_eq_getElem, List.getElem_zip]
      rw [hzz]
      exact hn
    · intro t; rw [hmap]; exact hcfit t
    · rw [hmap]; exact htfit
    · exact Nat.zero_le _
  have hmain : recordActionsBatch s sender agent actionTypes amounts now =
      .error .ZeroAmount := by
    unfold recordActionsBatch
    rw [if_neg (by tauto), if_neg hag, if_neg (by omega)]
    simp only [Bind.bind, Except.bind, hloop]
  refine ⟨hmain, ?_⟩
  have happ : applyOp s (Op.batch sender agent actionTypes amounts now) =
      .error .ZeroAmount := by
    show (recordActionsBatch s sender agent actionTypes amounts now).map
      Prod.fst = _
    rw [hmain]; rfl
  unfold step
  rw [happ]

/-- **C3 counterexample.**  A batch containing a zero amount submitted by an
unauthorized caller fails with `NotAuthorized`, not `ZeroAmount`, so the
claim's unconditional "fails with ZeroAmount" does not hold as stated. -/
theorem recordActionsBatch_atomic_claim_cex :
    (0 : Nat) ∈ [(0 : Nat)] ∧
    recordActionsBatch (initState 1) 3 2 [10] [0] 5 =
      .error .NotAuthorized ∧
    RepoErr.NotAuthorized ≠ RepoErr.ZeroAmount :=
  ⟨by decide, rfl, by decide⟩

/-- **C3 witness.** -/
theorem recordActionsBatch_atomic_witness :
    ((1 : Nat) = 2 ∨ (1 : Nat) = (initState 1).owner) ∧ (2 : Nat) ≠ 0 ∧
    ([10, 11] : List Nat).length = ([3, 0] : List Nat).length ∧
    (0 : Nat) ∈ [3, 0] ∧
    (recordActionsBatch (initState 1) 1 2 [10, 11] [3, 0] 5 =
        .error .ZeroAmount ∧
      step (initState 1) (.batch 1 2 [10, 11] [3, 0] 5) = initState 1) :=
  ⟨Or.inr rfl, by decide, rfl, by decide,
    recordActionsBatch_atomic (initState 1) 1 2 [10, 11] [3, 0] 5
      (Or.inr rfl) (by decide) rfl (by decide)
      (fun _ => show (0 : Nat) + [3, 0].sum ≤ UMAX by decide)
      (show (0 : Nat) + [3, 0].sum ≤ UMAX by decide)⟩

/-- A checked addition that returns computes the mathematical sum. -/
lemma uadd_ok {a b c : Nat} (h : uadd a b = .ok c) : c = a + b := by
  unfold uadd at h
  split_ifs at h <;> cases h <;> rfl

/-- Adding a positive amount at one key preserves aggregate coherence. -/
lemma InvAt_update (counts : Nat → Nat) (total ty amt : Nat)
    (hamt : amt ≠ 0) (h : InvAt counts total) :
    InvAt (fun t => if t = ty then counts ty + amt else counts t)
      (total + amt) := by
  obtain ⟨⟨T, hT⟩, hsum⟩ := h
  constructor
  · refine ⟨T ∪ {ty}, fun t ht => ?_⟩
    show (if t = ty then counts ty + amt else counts t) = 0
    rw [if_neg (fun he => ht (Finset.mem_union_right _
      (by rw [he]; exact Finset.mem_singleton_self ty)))]
    exact hT t (fun hm => ht (Finset.mem_union_left _ hm))
  · exact cover_update counts total ty amt hamt hsum

/-- Aggregate coherence only depends on the pointwise values of the map. -/
lemma InvAt_congr {counts counts' : Nat → Nat} {total : Nat}
    (hpt : ∀ t, counts' t = counts t) (h : InvAt counts total) :
    InvAt counts' total := by
  have he : counts' = counts := funext hpt
  rw [he]
  exact h

/-- A reverted call leaves the state unchanged. -/
lemma step_eq_of_error {s : RepoState} {op : Op} {e : RepoErr}
    (h : applyOp s op = .error e) : step s op = s := by
  unfold step; rw [h]

/-- A successful call moves to its post-state. -/
lemma step_eq_of_ok {s s2 : RepoState} {op : Op}
    (h : applyOp s op = .ok s2) : step s op = s2 := by
  unfold step; rw [h]

/-- A successful `recordAction` never decreases any counter or total. -/
lemma recordAction_mono {s : RepoState} {sender agent ty amt now : Nat}
    {s' : RepoState} {r : Nat}
    (h : recordAction s sender agent ty amt now = .ok (s', r)) :
    (∀ a, s.totalActions a ≤ s'.totalActions a) ∧
    (∀ a t, s.actionCounts a t ≤ s'.actionCounts a t) := by
  obtain ⟨_, _, hcnt, htot, _, _, _⟩ := recordAction_ok h
  constructor
  · intro a
    rw [htot a]
    split_ifs with hc
    · subst hc; exact Nat.le_add_right _ _
    · exact le_refl _
  · intro a t
    rw [hcnt a t]
    split_ifs with hc
    · obtain ⟨rfl, rfl⟩ := hc
      exact Nat.le_add_right _ _
    · exact le_refl _

/-- A successful `recordAction` preserves aggregate coherence. -/
lemma recordAction_SumInv {s : RepoState} {sender agent ty amt now : Nat}
    {s' : RepoState} {r : Nat}
    (h : recordAction s sender agent ty amt now = .ok (s', r))
    (hinv : SumInv s) : SumInv s' := by
  obtain ⟨hamt, _, hcnt, htot, _, _, _⟩ := recordAction_ok h
  intro a
  by_cases ha : a = agent
  · subst ha
    have hpt : ∀ t, s'.actionCounts a t =
        if t = ty then s.actionCounts a ty + amt else s.actionCounts a t := by
      intro t
      rw [hcnt a t]
      by_cases hx : t = ty
      · rw [if_pos ⟨rfl, hx⟩, if_pos hx]
      · rw [if_neg (fun hand => hx hand.2), if_neg hx]
    have htot' : s'.totalActions a = s.totalActions a + amt := by
      rw [htot a, if_pos rfl]
    rw [htot']
    exact InvAt_congr hpt
      (InvAt_update (s.actionCounts a) (s.totalActions a) ty amt hamt
        (hinv a))
  · have hpt : ∀ t, s'.actionCounts a t = s.actionCounts a t := fun t => by
      rw [hcnt a t, if_neg (fun hand => ha hand.1)]
    have htot' : s'.totalActions a = s.totalActions a := by
      rw [htot a, if_neg ha]
    rw [htot']
    exact InvAt_congr hpt (hinv a)

/-- Everything a successful batch loop guarantees: other agents' rows are
untouched, all counters and the running aggregate only grow, a loop that
added nothing changed nothing, and aggregate coherence of the updated row
is preserved. -/
lemma batchLoop_ok (agent : Nat) (l : List (Nat × Nat)) :
    ∀ (counts : Nat → Nat → Nat) (newTotal totalAdded : Nat)
      (counts' : Nat → Nat → Nat) (newTotal' totalAdded' : Nat),
      batchLoop agent counts newTotal totalAdded l =
        .ok (counts', newTotal', totalAdded') →
      (∀ a t, a ≠ agent → counts' a t = counts a t) ∧
      (∀ a t, counts a t ≤ counts' a t) ∧
      newTotal ≤ newTotal' ∧ totalAdded ≤ totalAdded' ∧
      (totalAdded' = totalAdded → ∀ a t, counts' a t = counts a t) ∧
      (InvAt (counts agent) newTotal → InvAt (counts' agent) newTotal') := by
  induction l with
  | nil =>
    intro counts newTotal totalAdded counts' newTotal' totalAdded' h
    unfold batchLoop at h
    cases h
    exact ⟨fun _ _ _ => rfl, fun _ _ => le_refl _, le_refl _, le_refl _,
      fun _ _ _ => rfl, id⟩
  | cons head rest ih =>
    obtain ⟨ty, a0⟩ := head
    intro counts newTotal totalAdded counts' newTotal' totalAdded' h
    unfold batchLoop at h
    by_cases ha : a0 = 0
    · rw [if_pos ha] at h; cases h
    · rw [if_neg ha] at h
      cases hu1 : uadd (counts agent ty) a0 with
      | error e => rw [hu1] at h; simp only [Bind.bind, Except.bind] at h
                   cases h
      | ok u1 =>
        rw [hu1] at h; simp only [Bind.bind, Except.bind] at h
        cases hu2 : uadd newTotal a0 with
        | error e => rw [hu2] at h; simp only [Except.bind] at h; cases h
        | ok u2 =>
          rw [hu2] at h; simp only [Except.bind] at h
          cases hu3 : uadd totalAdded a0 with
          | error e => rw [hu3] at h; simp only [Except.bind] at h; cases h
          | ok u3 =>
            rw [hu3] at h; simp only [Except.bind] at h
            obtain rfl := uadd_ok hu1
            obtain rfl := uadd_ok hu2
            obtain rfl := uadd_ok hu3
            obtain ⟨ih1, ih2, ih3, ih4, ih5, ih6⟩ :=
              ih _ _ _ _ _ _ h
            refine ⟨?_, ?_, ?_, ?_, ?_, ?_⟩
            · intro a t hne
              rw [ih1 a t hne]
              exact if_neg (fun hand => hne hand.1)
            · intro a t
              refine le_trans ?_ (ih2 a t)
              show counts a t ≤
                if a = agent ∧ t = ty then counts agent ty + a0
                else counts a t
              split_ifs with hc
              · obtain ⟨rfl, rfl⟩ := hc
                exact Nat.le_add_right _ _
              · exact le_refl _
            · exact le_trans (Nat.le_add_right _ _) ih3
            · exact le_trans (Nat.le_add_right _ _) ih4
            · intro hEq
              exact absurd hEq (by omega)
            · intro hInv
              refine ih6 (InvAt_congr (fun t => ?_)
                (InvAt_update (counts agent) newTotal ty a0 ha hInv))
              show (if agent = agent ∧ t = ty then counts agent ty + a0
                  else counts agent t) =
                if t = ty then counts agent ty + a0 else counts agent t
              by_cases hx : t = ty
              · rw [if_pos ⟨rfl, hx⟩, if_pos hx]
              · rw [if_neg (fun hand => hx hand.2), if_neg hx]

/-- Everything a successful `recordActionsBatch` guarantees: monotone
totals and counters, and preservation of aggregate coherence. -/
lemma recordActionsBatch_ok {s : RepoState} {sender agent : Nat}
    {actionTypes amounts : List Nat} {now : Nat} {s' : RepoState} {r : Nat}
    (h : recordActionsBatch s sender agent actionTypes amounts now =
      .ok (s', r)) :
    (∀ a, s.totalActions a ≤ s'.totalActions a) ∧
    (∀ a t, s.actionCounts a t ≤ s'.actionCounts a t) ∧
    (SumInv s → SumInv s') := by
  unfold recordActionsBatch at h
  split_ifs at h with h1 h2 h3
  simp only [Bind.bind] at h
  cases hbl : batchLoop agent s.actionCounts (s.totalActions agent) 0
      (actionTypes.zip amounts) with
  | error e => rw [hbl] at h; simp only [Except.bind] at h; cases h
  | ok trip =>
    obtain ⟨counts', newTotal', totalAdded'⟩ := trip
    rw [hbl] at h
    simp only [Except.bind] at h
    obtain ⟨hfr, hm, hmt, hmta, hteq, hinvp⟩ :=
      batchLoop_ok agent (actionTypes.zip amounts) _ _ _ _ _ _ hbl
    split_ifs at h with hpos
    · cases h
      refine ⟨?_, ?_, ?_⟩
      · intro a
        show s.totalActions a ≤
          if a = agent then newTotal' else s.totalActions a
        split_ifs with haa
        · subst haa; exact hmt
        · exact le_refl _
      · intro a t
        exact hm a t
      · intro hinv a
        by_cases haa : a = agent
        · subst haa
          show InvAt (counts' a)
            (if a = a then newTotal' else s.totalActions a)
          rw [if_pos rfl]
          exact hinvp (hinv a)
        · show InvAt (counts' a)
            (if a = agent then newTotal' else s.totalActions a)
          rw [if_neg haa]
          exact InvAt_congr (fun t => hfr a t haa) (hinv a)
    · cases h
      have hpt := hteq (by omega)
      refine ⟨fun a => le_refl _, fun a t => hm a t, ?_⟩
      intro hinv a
      show InvAt (counts' a) (s.totalActions a)
      exact InvAt_congr (fun t => hpt a t) (hinv a)

/-- A successful `setAgentStatus` touches neither counters nor totals. -/
lemma setAgentStatus_ok {s : RepoState} {sender agent : Nat}
    {active : Bool} {s2 : RepoState}
    (h : setAgentStatus s sender agent active = .ok s2) :
    s2.actionCounts = s.actionCounts ∧ s2.totalActions = s.totalActions := by
  unfold setAgentStatus at h
  split_ifs at h
  all_goals cases h
  exact ⟨rfl, rfl⟩

/-- A successful `transferOwnership` touches neither counters nor totals. -/
lemma transferOwnership_ok {s : RepoState} {sender newOwner : Nat}
    {s2 : RepoState} (h : transferOwnership s sender newOwner = .ok s2) :
    s2.actionCounts = s.actionCounts ∧ s2.totalActions = s.totalActions := by
  unfold transferOwnership at h
  split_ifs at h
  all_goals cases h
  exact ⟨rfl, rfl⟩

/-- Every external call — successful or reverted — leaves every total and
every per-type counter non-decreasing and preserves aggregate coherence. -/
lemma step_mono_inv (s : RepoState) (op : Op) :
    (∀ a, s.totalActions a ≤ (step s op).totalActions a) ∧
    (∀ a t, s.actionCounts a t ≤ (step s op).actionCounts a t) ∧
    (SumInv s → SumInv (step s op)) := by
  cases op with
  | record sender agent ty amt now =>
    cases hA : recordAction s sender agent ty amt now with
    | error e =>
      rw [step_eq_of_error (show applyOp s _ = .error e from by
        show (recordAction s sender agent ty amt now).map Prod.fst = _
        rw [hA]; rfl)]
      exact ⟨fun _ => le_refl _, fun _ _ => le_refl _, id⟩
    | ok p =>
      rw [step_eq_of_ok (show applyOp s _ = .ok p.1 from by
        show (recordAction s sender agent ty amt now).map Prod.fst = _
        rw [hA]; rfl)]
      obtain ⟨hm1, hm2⟩ := recordAction_mono hA
      exact ⟨hm1, hm2, recordAction_SumInv hA⟩
  | recordSelf sender ty amt now =>
    have hA0 : recordActionForSelf s sender ty amt now =
        recordAction s sender sender ty amt now := rfl
    cases hA : recordAction s sender sender ty amt now with
    | error e =>
      rw [step_eq_of_error (show applyOp s _ = .error e from by
        show (recordActionForSelf s sender ty amt now).map Prod.fst = _
        rw [hA0, hA]; rfl)]
      exact ⟨fun _ => le_refl _, fun _ _ => le_refl _, id⟩
    | ok p =>
      rw [step_eq_of_ok (show applyOp s _ = .ok p.1 from by
        show (recordActionForSelf s sender ty amt now).map Prod.fst = _
        rw [hA0, hA]; rfl)]
      obtain ⟨hm1, hm2⟩ := recordAction_mono hA
      exact ⟨hm1, hm2, recordAction_SumInv hA⟩
  | batch sender agent actionTypes amounts now =>
    cases hB : recordActionsBatch s sender agent actionTypes amounts now with
    | error e =>
      rw [step_eq_of_error (show applyOp s _ = .error e from by
        show (recordActionsBatch s sender agent actionTypes amounts
          now).map Prod.fst = _
        rw [hB]; rfl)]
      exact ⟨fun _ => le_refl _, fun _ _ => le_refl _, id⟩
    | ok p =>
      rw [step_eq_of_ok (show applyOp s _ = .ok p.1 from by
        show (recordActionsBatch s sender agent actionTypes amounts
          now).map Prod.fst = _
        rw [hB]; rfl)]
      obtain ⟨hm1, hm2, hm3⟩ := recordActionsBatch_ok hB
      exact ⟨hm1, hm2, hm3⟩
  | setStatus sender agent active =>
    cases hS : setAgentStatus s sender agent active with
    | error e =>
      rw [step_eq_of_error (show applyOp s (Op.setStatus sender agent active) =
        .error e from hS)]
      exact ⟨fun _ => le_refl _, fun _ _ => le_refl _, id⟩
    | ok s2 =>
      rw [step_eq_of_ok (show applyOp s (Op.setStatus sender agent active) =
        .ok s2 from hS)]
      obtain ⟨hc, ht⟩ := setAgentStatus_ok hS
      refine ⟨fun a => by rw [ht], fun a t => by rw [hc], ?_⟩
      intro hinv a
      show InvAt (s2.actionCounts a) (s2.totalActions a)
      rw [hc, ht]
      exact hinv a
  | transfer sender newOwner =>
    cases hT : transferOwnership s sender newOwner with
    | error e =>
      rw [step_eq_of_error (show applyOp s (Op.transfer sender newOwner) =
        .error e from hT)]
      exact ⟨fun _ => le_refl _, fun _ _ => le_refl _, id⟩
    | ok s2 =>
      rw [step_eq_of_ok (show applyOp s (Op.transfer sender newOwner) =
        .ok s2 from hT)]
      obtain ⟨hc, ht⟩ := transferOwnership_ok hT
      refine ⟨fun a => by rw [ht], fun a t => by rw [hc], ?_⟩
      intro hinv a
      show InvAt (s2.actionCounts a) (s2.totalActions a)
      rw [hc, ht]
      exact hinv a

/-- Aggregate coherence is preserved along any execution history. -/
lemma foldl_SumInv (ops : List Op) :
    ∀ s, SumInv s → SumInv (List.foldl step s ops) := by
  induction ops with
  | nil => intro s h; exact h
  | cons op rest ih => intro s h; exact ih _ ((step_mono_inv s op).2.2 h)

/-- A freshly constructed repository is coherent: all counters are zero. -/
lemma initState_SumInv (admin : Nat) : SumInv (initState admin) := by
  intro a
  constructor
  · exact ⟨∅, fun _ _ => rfl⟩
  · intro T hT
    exact (Finset.sum_eq_zero fun t _ => rfl).symm

/-- **C5.**  In every state reachable from a freshly constructed
`ActionRepository`, every agent's stored `_totalActions` equals the sum of
that agent's `_actionCounts` over all action types (the row has finite
support and the aggregate is the sum over any covering finite set), and
every external call leaves every agent's total and per-type counters
non-decreasing. -/
theorem totalActions_eq_sum_and_monotone :
    (∀ s, Reachable s → SumInv s) ∧
    (∀ s op,
      (∀ a, s.totalActions a ≤ (step s op).totalActions a) ∧
      (∀ a t, s.actionCounts a t ≤ (step s op).actionCounts a t)) := by
  constructor
  · rintro s ⟨admin, ops, hadmin, rfl⟩
    exact foldl_SumInv ops _ (initState_SumInv admin)
  · intro s op
    exact ⟨(step_mono_inv s op).1, (step_mono_inv s op).2.1⟩

/-- **C5 witness.** -/
theorem totalActions_eq_sum_and_monotone_witness :
    Reachable (step (initState 1) (Op.record 1 2 10 3 50)) ∧
    SumInv (step (initState 1) (Op.record 1 2 10 3 50)) ∧
    (initState 1).totalActions 2 ≤
      (step (initState 1) (Op.record 1 2 10 3 50)).totalActions 2 :=
  ⟨⟨1, [Op.record 1 2 10 3 50], Nat.one_ne_zero, rfl⟩,
    totalActions_eq_sum_and_monotone.1 _
      ⟨1, [Op.record 1 2 10 3 50], Nat.one_ne_zero, rfl⟩,
    (totalActions_eq_sum_and_monotone.2 (initState 1)
      (Op.record 1 2 10 3 50)).1 2⟩

end LedgerClaims

section NonceClaims

open ActionRepositoryV2

/-- `consumes` on a `verifyAndConsumeAction` call, by definition. -/
lemma consumes_verify (f : Recover) (n : Nat) (s : RepoV2)
    (actionId nonce timestamp v r sg now : Nat) :
    consumes f n s (OpV2.verify actionId nonce timestamp v r sg now) =
      (nonce == n &&
        exOk (verifyAndConsumeAction f s actionId nonce timestamp v r sg
          now)) := rfl

/-- `consumes` on a `recordAction` call, by definition. -/
lemma consumes_record (f : Recover) (n : Nat) (s : RepoV2)
    (sender ty amt now : Nat) :
    consumes f n s (OpV2.record sender ty amt now) = false := rfl

/-- `consumes` on a `recordActionsBatch` call, by definition. -/
lemma consumes_batch (f : Recover) (n : Nat) (s : RepoV2) (sender : Nat)
    (actionTypes amounts : List Nat) (now : Nat) :
    consumes f n s (OpV2.batch sender actionTypes amounts now) = false := rfl

/-- `consumes` on a `transferOwnership` call, by definition. -/
lemma consumes_transfer (f : Recover) (n : Nat) (s : RepoV2)
    (sender newOwner : Nat) :
    consumes f n s (OpV2.transfer sender newOwner) = false := rfl

/-- `consumes` on a `renounceOwnership` call, by definition. -/
lemma consumes_renounce (f : Recover) (n : Nat) (s : RepoV2)
    (sender : Nat) :
    consumes f n s (OpV2.renounce sender) = false := rfl

/-- A consumed nonce makes `verifyAndConsumeAction` revert immediately with
`NonceAlreadyUsed`, whatever the rest of the payload. -/
lemma verifyAndConsume_used {f : Recover} {s : RepoV2}
    {actionId n timestamp v r sg now : Nat}
    (h : s.actionNoncesUsed n = true) :
    verifyAndConsumeAction f s actionId n timestamp v r sg now =
      .error .NonceAlreadyUsed := by
  unfold verifyAndConsumeAction
  rw [if_pos h]

/-- Full characterization of a successful internal `recordActionAs`. -/
lemma recordActionAs_ok {s : RepoV2} {ty amt agent now : Nat}
    {s' : RepoV2} {r : Nat}
    (h : recordActionAs s ty amt agent now = .ok (s', r)) :
    amt ≠ 0 ∧ agent ≠ 0 ∧
    (∀ a t, s'.actionCounts a t =
      if a = agent ∧ t = ty then s.actionCounts agent ty + amt
      else s.actionCounts a t) ∧
    (∀ a, s'.totalActions a =
      if a = agent then s.totalActions agent + amt else s.totalActions a) ∧
    (∀ a, s'.lastActionAt a =
      if a = agent then now else s.lastActionAt a) ∧
    (∀ a, s'.agentActive a =
      if a = agent then true else s.agentActive a) ∧
    s'.actionNoncesUsed = s.actionNoncesUsed ∧
    r = s.actionCounts agent ty + amt := by
  unfold recordActionAs uadd at h
  split_ifs at h with h1 h2 h3 h4
  all_goals simp only [Bind.bind, Except.bind] at h
  all_goals cases h
  exact ⟨h2, h1, fun a t => rfl, fun a => rfl, fun a => rfl, fun a => rfl,
    rfl, rfl⟩

/-- Full characterization of a successful `verifyAndConsumeAction`: the
nonce was fresh and is now consumed (and no other nonce changed), and
exactly one action of amount 1 was credited to `mainSigner` under the
action type `actionId`. -/
lemma verifyAndConsume_ok {f : Recover} {s : RepoV2}
    {actionId nonce timestamp v r sg now : Nat} {s' : RepoV2} {ret : Nat}
    (h : verifyAndConsumeAction f s actionId nonce timestamp v r sg now =
      .ok (s', ret)) :
    s.actionNoncesUsed nonce = false ∧
    (∀ m, s'.actionNoncesUsed m =
      if m = nonce then true else s.actionNoncesUsed m) ∧
    (∀ a t, s'.actionCounts a t =
      if a = s.mainSigner ∧ t = actionId then
        s.actionCounts s.mainSigner actionId + 1
      else s.actionCounts a t) ∧
    (∀ a, s'.totalActions a =
      if a = s.mainSigner then s.totalActions s.mainSigner + 1
      else s.totalActions a) ∧
    ret = s.actionCounts s.mainSigner actionId + 1 := by
  unfold verifyAndConsumeAction at h
  cases hu : s.actionNoncesUsed nonce with
  | true => rw [if_pos hu] at h; cases h
  | false =>
    rw [if_neg (by rw [hu]; exact Bool.false_ne_true)] at h
    split at h
    · cases h
    · rename_i recoveredSigner heq
      by_cases hsig : recoveredSigner = s.mainSigner
      · rw [if_neg (fun hne => hne hsig)] at h
        obtain ⟨-, -, hc, ht, -, -, hnn, hr⟩ := recordActionAs_ok h
        exact ⟨rfl, fun m => by rw [hnn], fun a t => by rw [hc a t],
          fun a => by rw [ht a], hr⟩
      · rw [if_pos hsig] at h
        cases h

/-- A reverted call leaves the state unchanged (variant 2). -/
lemma stepV2_eq_of_error {f : Recover} {s : RepoV2} {op : OpV2}
    {e : RepoErr} (h : applyOpV2 f s op = .error e) : stepV2 f s op = s := by
  unfold stepV2; rw [h]

/-- A successful call moves to its post-state (variant 2). -/
lemma stepV2_eq_of_ok {f : Recover} {s s2 : RepoV2} {op : OpV2}
    (h : applyOpV2 f s op = .ok s2) : stepV2 f s op = s2 := by
  unfold stepV2; rw [h]

/-- A successful variant-2 `recordAction` does not touch the nonce set. -/
lemma recordActionV2_ok_nonces {s : RepoV2} {sender ty amt now : Nat}
    {s' : RepoV2} {r : Nat}
    (h : recordActionV2 s sender ty amt now = .ok (s', r)) :
    s'.actionNoncesUsed = s.actionNoncesUsed := by
  unfold recordActionV2 uadd at h
  split_ifs at h
  all_goals simp only [Bind.bind, Except.bind] at h
  all_goals cases h
  rfl

/-- A successful variant-2 `recordActionsBatch` does not touch the nonce
set. -/
lemma recordActionsBatchV2_ok_nonces {s : RepoV2} {sender : Nat}
    {actionTypes amounts : List Nat} {now : Nat} {s' : RepoV2} {r : Nat}
    (h : recordActionsBatchV2 s sender actionTypes amounts now =
      .ok (s', r)) :
    s'.actionNoncesUsed = s.actionNoncesUsed := by
  unfold recordActionsBatchV2 at h
  split_ifs at h
  simp only [Bind.bind] at h
  cases hbl : ActionRepository.batchLoop sender s.actionCounts
      (s.totalActions sender) 0 (actionTypes.zip amounts) with
  | error e => rw [hbl] at h; simp only [Except.bind] at h; cases h
  | ok trip =>
    obtain ⟨counts', newTotal', totalAdded'⟩ := trip
    rw [hbl] at h
    simp only [Except.bind] at h
    split_ifs at h
    all_goals cases h
    all_goals rfl

/-- A successful ownership transfer does not touch the nonce set. -/
lemma transferOwnershipV2_ok_nonces {s : RepoV2} {sender newOwner : Nat}
    {s2 : RepoV2} (h : transferOwnershipV2 s sender newOwner = .ok s2) :
    s2.actionNoncesUsed = s.actionNoncesUsed := by
  unfold transferOwnershipV2 at h
  split_ifs at h
  all_goals cases h
  rfl

/-- A successful ownership renouncement does not touch the nonce set. -/
lemma renounceOwnershipV2_ok_nonces {s : RepoV2} {sender : Nat}
    {s2 : RepoV2} (h : renounceOwnershipV2 s sender = .ok s2) :
    s2.actionNoncesUsed = s.actionNoncesUsed := by
  unfold renounceOwnershipV2 at h
  split_ifs at h
  all_goals cases h
  rfl

/-- Once a nonce is consumed, no external call ever unconsumes it. -/
lemma stepV2_nonce_mono (f : Recover) (s : RepoV2) (op : OpV2) (n : Nat)
    (h : s.actionNoncesUsed n = true) :
    (stepV2 f s op).actionNoncesUsed n = true := by
  cases op with
  | record sender ty amt now =>
    cases hA : recordActionV2 s sender ty amt now with
    | error e =>
      rw [stepV2_eq_of_error (show applyOpV2 f s _ = .error e from by
        show (recordActionV2 s sender ty amt now).map Prod.fst = _
        rw [hA]; rfl)]
      exact h
    | ok p =>
      rw [stepV2_eq_of_ok (show applyOpV2 f s _ = .ok p.1 from by
        show (recordActionV2 s sender ty amt now).map Prod.fst = _
        rw [hA]; rfl)]
      rw [recordActionV2_ok_nonces hA]
      exact h
  | batch sender actionTypes amounts now =>
    cases hA : recordActionsBatchV2 s sender actionTypes amounts now with
    | error e =>
      rw [stepV2_eq_of_error (show applyOpV2 f s _ = .error e from by
        show (recordActionsBatchV2 s sender actionTypes amounts now).map
          Prod.fst = _
        rw [hA]; rfl)]
      exact h
    | ok p =>
      rw [stepV2_eq_of_ok (show applyOpV2 f s _ = .ok p.1 from by
        show (recordActionsBatchV2 s sender actionTypes amounts now).map
          Prod.fst = _
        rw [hA]; rfl)]
      rw [recordActionsBatchV2_ok_nonces hA]
      exact h
  | verify actionId nonce timestamp v r sg now =>
    cases hA : verifyAndConsumeAction f s actionId nonce timestamp v r sg
        now with
    | error e =>
      rw [stepV2_eq_of_error (show applyOpV2 f s _ = .error e from by
        show (verifyAndConsumeAction f s actionId nonce timestamp v r sg
          now).map Prod.fst = _
        rw [hA]; rfl)]
      exact h
    | ok p =>
      rw [stepV2_eq_of_ok (show applyOpV2 f s _ = .ok p.1 from by
        show (verifyAndConsumeAction f s actionId nonce timestamp v r sg
          now).map Prod.fst = _
        rw [hA]; rfl)]
      obtain ⟨-, hn, -, -, -⟩ := verifyAndConsume_ok hA
      rw [hn n]
      split_ifs with hm
      · rfl
      · exact h
  | transfer sender newOwner =>
    cases hA : transferOwnershipV2 s sender newOwner with
    | error e =>
      rw [stepV2_eq_of_error (show applyOpV2 f s
        (OpV2.transfer sender newOwner) = .error e from hA)]
      exact h
    | ok s2 =>
      rw [stepV2_eq_of_ok (show applyOpV2 f s
        (OpV2.transfer sender newOwner) = .ok s2 from hA)]
      rw [transferOwnershipV2_ok_nonces hA]
      exact h
  | renounce sender =>
    cases hA : renounceOwnershipV2 s sender with
    | error e =>
      rw [stepV2_eq_of_error (show applyOpV2 f s (OpV2.renounce sender) =
        .error e from hA)]
      exact h
    | ok s2 =>
      rw [stepV2_eq_of_ok (show applyOpV2 f s (OpV2.renounce sender) =
        .ok s2 from hA)]
      rw [renounceOwnershipV2_ok_nonces hA]
      exact h

/-- An external call that is not a successful consumption of nonce `n`
leaves the consumed-status of `n` unchanged. -/
lemma stepV2_nonce_eq_of_not_consumes (f : Recover) (n : Nat) (s : RepoV2)
    (op : OpV2) (h : consumes f n s op = false) :
    (stepV2 f s op).actionNoncesUsed n = s.actionNoncesUsed n := by
  cases op with
  | record sender ty amt now =>
    cases hA : recordActionV2 s sender ty amt now with
    | error e =>
      rw [stepV2_eq_of_error (show applyOpV2 f s _ = .error e from by
        show (recordActionV2 s sender ty amt now).map Prod.fst = _
        rw [hA]; rfl)]
    | ok p =>
      rw [stepV2_eq_of_ok (show applyOpV2 f s _ = .ok p.1 from by
        show (recordActionV2 s sender ty amt now).map Prod.fst = _
        rw [hA]; rfl)]
      rw [recordActionV2_ok_nonces hA]
  | batch sender actionTypes amounts now =>
    cases hA : recordActionsBatchV2 s sender actionTypes amounts now with
    | error e =>
      rw [stepV2_eq_of_error (show applyOpV2 f s _ = .error e from by
        show (recordActionsBatchV2 s sender actionTypes amounts now).map
          Prod.fst = _
        rw [hA]; rfl)]
    | ok p =>
      rw [stepV2_eq_of_ok (show applyOpV2 f s _ = .ok p.1 from by
        show (recordActionsBatchV2 s sender actionTypes amounts now).map
          Prod.fst = _
        rw [hA]; rfl)]
      rw [recordActionsBatchV2_ok_nonces hA]
  | verify actionId nonce timestamp v r sg now =>
    cases hA : verifyAndConsumeAction f s actionId nonce timestamp v r sg
        now with
    | error e =>
      rw [stepV2_eq_of_error (show applyOpV2 f s _ = .error e from by
        show (verifyAndConsumeAction f s actionId nonce timestamp v r sg
          now).map Prod.fst = _
        rw [hA]; rfl)]
    | ok p =>
      rw [stepV2_eq_of_ok (show applyOpV2 f s _ = .ok p.1 from by
        show (verifyAndConsumeAction f s actionId nonce timestamp v r sg
          now).map Prod.fst = _
        rw [hA]; rfl)]
      obtain ⟨-, hn, -, -, -⟩ := verifyAndConsume_ok hA
      rw [hn n]
      have hne : n ≠ nonce := by
        intro hEq
        subst hEq
        rw [consumes_verify, hA] at h
        simp [exOk] at h
      rw [if_neg hne]
  | transfer sender newOwner =>
    cases hA : transferOwnershipV2 s sender newOwner with
    | error e =>
      rw [stepV2_eq_of_error (show applyOpV2 f s
        (OpV2.transfer sender newOwner) = .error e from hA)]
    | ok s2 =>
      rw [stepV2_eq_of_ok (show applyOpV2 f s
        (OpV2.transfer sender newOwner) = .ok s2 from hA)]
      rw [transferOwnershipV2_ok_nonces hA]
  | renounce sender =>
    cases hA : renounceOwnershipV2 s sender with
    | error e =>
      rw [stepV2_eq_of_error (show applyOpV2 f s (OpV2.renounce sender) =
        .error e from hA)]
    | ok s2 =>
      rw [stepV2_eq_of_ok (show applyOpV2 f s (OpV2.renounce sender) =
        .ok s2 from hA)]
      rw [renounceOwnershipV2_ok_nonces hA]

/-- Along any history started with nonce `n` already consumed, no call ever
consumes `n` again. -/
lemma countConsume_zero (f : Recover) (n : Nat) :
    ∀ (ops : List OpV2) (s : RepoV2), s.actionNoncesUsed n = true →
      countConsume f n s ops = 0 := by
  intro ops
  induction ops with
  | nil => intro s _; rfl
  | cons op rest ih =>
    intro s h
    have hc : consumes f n s op = false := by
      cases op with
      | verify actionId m timestamp v r sg now =>
        rw [consumes_verify]
        by_cases hm : m = n
        · subst hm
          rw [verifyAndConsume_used h]
          simp [exOk]
        · simp [hm]
      | record sender ty amt now => rfl
      | batch sender actionTypes amounts now => rfl
      | transfer sender newOwner => rfl
      | renounce sender => rfl
    unfold countConsume
    rw [hc]
    simp only [Bool.false_eq_true, if_false, Nat.zero_add]
    exact ih _ (stepV2_nonce_mono f s op n h)

/-- Along any history started with nonce `n` fresh, `n` is consumed at most
once. -/
lemma countConsume_le_one (f : Recover) (n : Nat) :
    ∀ (ops : List OpV2) (s : RepoV2), s.actionNoncesUsed n = false →
      countConsume f n s ops ≤ 1 := by
  intro ops
  induction ops with
  | nil => intro s _; exact Nat.zero_le 1
  | cons op rest ih =>
    intro s h
    unfold countConsume
    cases hc : consumes f n s op with
    | true =>
      have hn : (stepV2 f s op).actionNoncesUsed n = true := by
        cases op with
        | verify actionId m timestamp v r sg now =>
          rw [consumes_verify] at hc
          simp only [Bool.and_eq_true, beq_iff_eq] at hc
          obtain ⟨hmn, hok⟩ := hc
          subst hmn
          cases hA : verifyAndConsumeAction f s actionId m timestamp v r
              sg now with
          | error e => rw [hA] at hok; simp [exOk] at hok
          | ok p =>
            rw [stepV2_eq_of_ok (show applyOpV2 f s _ = .ok p.1 from by
              show (verifyAndConsumeAction f s actionId m timestamp v r sg
                now).map Prod.fst = _
              rw [hA]; rfl)]
            obtain ⟨-, hnn, -, -, -⟩ := verifyAndConsume_ok hA
            rw [hnn m, if_pos rfl]
        | record sender ty amt now => rw [consumes_record] at hc; cases hc
        | batch sender actionTypes amounts now =>
          rw [consumes_batch] at hc; cases hc
        | transfer sender newOwner =>
          rw [consumes_transfer] at hc; cases hc
        | renounce sender => rw [consumes_renounce] at hc; cases hc
      rw [if_pos rfl, countConsume_zero f n rest _ hn]
    | false =>
      rw [if_neg Bool.false_ne_true, Nat.zero_add]
      refine ih _ ?_
      rw [stepV2_nonce_eq_of_not_consumes f n s op hc]
      exact h

/-- **C4.**  Nonce uniqueness: along every execution history starting with
nonce `n` unconsumed, at most one `verifyAndConsumeAction` call consuming
`n` succeeds; once `n` is consumed, every later attempt with `n` reverts
with `NonceAlreadyUsed` regardless of the rest of the payload, and no call
ever clears the consumed mark. -/
theorem nonce_uniqueness :
    (∀ (f : Recover) (s0 : RepoV2) (n : Nat) (ops : List OpV2),
      s0.actionNoncesUsed n = false → countConsume f n s0 ops ≤ 1) ∧
    (∀ (f : Recover) (s : RepoV2) (actionId n timestamp v r sg now : Nat),
      s.actionNoncesUsed n = true →
      verifyAndConsumeAction f s actionId n timestamp v r sg now =
        .error .NonceAlreadyUsed) ∧
    (∀ (f : Recover) (s : RepoV2) (op : OpV2) (n : Nat),
      s.actionNoncesUsed n = true →
      (stepV2 f s op).actionNoncesUsed n = true) :=
  ⟨fun f s0 n ops h => countConsume_le_one f n ops s0 h,
    fun _ _ _ _ _ _ _ _ _ h => verifyAndConsume_used h,
    fun f s op n h => stepV2_nonce_mono f s op n h⟩

/-- **C4 witness.** -/
theorem nonce_uniqueness_witness :
    freshV2.actionNoncesUsed 9 = false ∧
    usedV2.actionNoncesUsed 9 = true ∧
    countConsume recoverConst 9 freshV2
      [OpV2.verify 7 9 100 0 0 0 50, OpV2.verify 7 9 101 0 0 0 51] ≤ 1 ∧
    verifyAndConsumeAction recoverConst usedV2 7 9 100 0 0 0 50 =
      .error .NonceAlreadyUsed :=
  ⟨rfl, rfl,
    nonce_uniqueness.1 recoverConst freshV2 9
      [OpV2.verify 7 9 100 0 0 0 50, OpV2.verify 7 9 101 0 0 0 51] rfl,
    nonce_uniqueness.2.1 recoverConst usedV2 7 9 100 0 0 0 50 rfl⟩

/-- **C6.**  Nonce/mutation pairing: when `verifyAndConsumeAction` fails,
nothing changes — in particular the nonce is not left consumed; when it
succeeds, exactly the one nonce is newly consumed and exactly one action of
amount 1 is credited to `mainSigner`, in the same atomic step. -/
theorem verifyAndConsume_pairing :
    ∀ (f : Recover) (s : RepoV2) (actionId nonce timestamp v r sg now : Nat),
      (exOk (verifyAndConsumeAction f s actionId nonce timestamp v r sg
          now) = false →
        stepV2 f s (.verify actionId nonce timestamp v r sg now) = s) ∧
      (exOk (verifyAndConsumeAction f s actionId nonce timestamp v r sg
          now) = true →
        s.actionNoncesUsed nonce = false ∧
        (stepV2 f s (.verify actionId nonce timestamp v r sg
          now)).actionNoncesUsed nonce = true ∧
        (∀ m, m ≠ nonce →
          (stepV2 f s (.verify actionId nonce timestamp v r sg
            now)).actionNoncesUsed m = s.actionNoncesUsed m) ∧
        (stepV2 f s (.verify actionId nonce timestamp v r sg
          now)).actionCounts s.mainSigner actionId =
          s.actionCounts s.mainSigner actionId + 1 ∧
        (stepV2 f s (.verify actionId nonce timestamp v r sg
          now)).totalActions s.mainSigner =
          s.totalActions s.mainSigner + 1 ∧
        (∀ a t, ¬(a = s.mainSigner ∧ t = actionId) →
          (stepV2 f s (.verify actionId nonce timestamp v r sg
            now)).actionCounts a t = s.actionCounts a t) ∧
        (∀ a, a ≠ s.mainSigner →
          (stepV2 f s (.verify actionId nonce timestamp v r sg
            now)).totalActions a = s.totalActions a)) := by
  intro f s actionId nonce timestamp v r sg now
  cases hA : verifyAndConsumeAction f s actionId nonce timestamp v r sg
      now with
  | error e =>
    constructor
    · intro _
      exact stepV2_eq_of_error (show applyOpV2 f s _ = .error e from by
        show (verifyAndConsumeAction f s actionId nonce timestamp v r sg
          now).map Prod.fst = _
        rw [hA]; rfl)
    · intro habs
      simp [exOk] at habs
  | ok p =>
    constructor
    · intro habs
      simp [exOk] at habs
    · intro _
      have hstep : stepV2 f s (.verify actionId nonce timestamp v r sg
          now) = p.1 :=
        stepV2_eq_of_ok (show applyOpV2 f s _ = .ok p.1 from by
          show (verifyAndConsumeAction f s actionId nonce timestamp v r sg
            now).map Prod.fst = _
          rw [hA]; rfl)
      obtain ⟨hused, hn, hc, ht, -⟩ := verifyAndConsume_ok hA
      rw [hstep]
      refine ⟨hused, ?_, ?_, ?_, ?_, ?_, ?_⟩
      · rw [hn nonce, if_pos rfl]
      · intro m hm
        rw [hn m, if_neg hm]
      · rw [hc s.mainSigner actionId, if_pos ⟨rfl, rfl⟩]
      · rw [ht s.mainSigner, if_pos rfl]
      · intro a t hne
        rw [hc a t, if_neg hne]
      · intro a hne
        rw [ht a, if_neg hne]

/-- **C6 witness.** -/
theorem verifyAndConsume_pairing_witness :
    exOk (verifyAndConsumeAction recoverConst freshV2 7 9 100 0 0 0 50) =
      true ∧
    (freshV2.actionNoncesUsed 9 = false ∧
      (stepV2 recoverConst freshV2
        (.verify 7 9 100 0 0 0 50)).actionNoncesUsed 9 = true ∧
      (∀ m, m ≠ 9 →
        (stepV2 recoverConst freshV2
          (.verify 7 9 100 0 0 0 50)).actionNoncesUsed m =
          freshV2.actionNoncesUsed m) ∧
      (stepV2 recoverConst freshV2
        (.verify 7 9 100 0 0 0 50)).actionCounts freshV2.mainSigner 7 =
        freshV2.actionCounts freshV2.mainSigner 7 + 1 ∧
      (stepV2 recoverConst freshV2
        (.verify 7 9 100 0 0 0 50)).totalActions freshV2.mainSigner =
        freshV2.totalActions freshV2.mainSigner + 1 ∧
      (∀ a t, ¬(a = freshV2.mainSigner ∧ t = 7) →
        (stepV2 recoverConst freshV2
          (.verify 7 9 100 0 0 0 50)).actionCounts a t =
          freshV2.actionCounts a t) ∧
      (∀ a, a ≠ freshV2.mainSigner →
        (stepV2 recoverConst freshV2
          (.verify 7 9 100 0 0 0 50)).totalActions a =
          freshV2.totalActions a)) ∧
    exOk (verifyAndConsumeAction recoverConst usedV2 7 9 100 0 0 0 50) =
      false ∧
    stepV2 recoverConst usedV2 (.verify 7 9 100 0 0 0 50) = usedV2 :=
  ⟨rfl,
    (verifyAndConsume_pairing recoverConst freshV2 7 9 100 0 0 0 50).2 rfl,
    rfl,
    (verifyAndConsume_pairing recoverConst usedV2 7 9 100 0 0 0 50).1 rfl⟩

end NonceClaims
